import Mathlib

set_option autoImplicit false

/-!
Verification of the queue-monitoring probe `overview.go`.

The program polls message-broker management endpoints, extracts two queue
depth counters, and classifies each against warning/critical thresholds.
This file gives a shallow embedding of its functions:

* `splitComma`   — `strings.Split(s, ",")` for a one-character separator;
* `atoi`         — `strconv.Atoi` (optional sign, decimal digits, 64-bit range);
* `limitMap`     — the limit parser, including the `log.Println` it performs
                   on the `Atoi` failure path, captured as a log-line list;
* `processOverview` — the threshold evaluator, returning the stdout lines it
                   prints plus a flag recording an out-of-bounds index panic;
* `unmarshalOverview` / `processHost` — the JSON decoding of the response
                   body into the `Overview` struct, with the network
                   abstracted as the observed HTTP exchange;
* `loopHosts` / `mainRun` — the run controller after CLI parsing.

Machine integers are modelled as `Int` (Go `int` is 64-bit; the only place
the width is observable is `strconv.Atoi`'s and `encoding/json`'s range
checks, made explicit below). Go strings are modelled as `List Char`.
-/

namespace NagiosRabbit

/-- A Go string, viewed as its character sequence. -/
abbrev GoStr := List Char

/-- Model of `strings.Split(s, ",")`: cut at every comma. The empty string
yields one empty piece, matching Go (`len(strings.Split("", ",")) == 1`). -/
def splitComma : GoStr → List GoStr
  | [] => [[]]
  | c :: rest =>
    if c = ',' then [] :: splitComma rest
    else
      match splitComma rest with
      | [] => [[c]]
      | p :: ps => (c :: p) :: ps

/-- Largest value of Go's 64-bit `int`. -/
def int64Max : Int := 9223372036854775807

/-- Smallest value of Go's 64-bit `int`. -/
def int64Min : Int := -9223372036854775808

/-- Decimal digit run, accumulated left to right; fails on any non-digit. -/
def digitsVal (acc : Nat) : GoStr → Option Nat
  | [] => some acc
  | c :: rest => if c.isDigit then digitsVal (10 * acc + (c.toNat - 48)) rest else none

/-- A nonempty decimal digit run. -/
def decimalVal : GoStr → Option Nat
  | [] => none
  | c :: rest => digitsVal 0 (c :: rest)

/-- Range check of `strconv.ParseInt` for a non-negative magnitude. -/
def intoInt64Pos (n : Nat) : Option Int :=
  if (n : Int) ≤ int64Max then some (n : Int) else none

/-- Range check of `strconv.ParseInt` for a negated magnitude. -/
def intoInt64Neg (n : Nat) : Option Int :=
  if int64Min ≤ -(n : Int) then some (-(n : Int)) else none

/-- Model of `strconv.Atoi`: an optional `+`/`-` sign followed by a nonempty
run of decimal digits, rejected when outside the 64-bit `int` range.
`none` stands for the non-nil `error` return. -/
def atoi (s : GoStr) : Option Int :=
  match s with
  | [] => none
  | c :: rest =>
    if c = '+' then (decimalVal rest).bind intoInt64Pos
    else if c = '-' then (decimalVal rest).bind intoInt64Neg
    else (decimalVal (c :: rest)).bind intoInt64Pos

/-- The two failure modes of `limitMap`: the piece-count error built with
`errors.New`, and a `strconv.Atoi` error forwarded to the caller. -/
inductive LimitError where
  | malformedLimits
  | nonNumericLimit
deriving DecidableEq, Repr

/-- Failure modes of `processHost`: a transport-level error from issuing the
request, or a body that does not decode into `Overview`. -/
inductive FetchError where
  | transportError
  | decodeError
deriving DecidableEq, Repr

/-- One line written to the error log (`log.Println`). `atoiFailure` is the
line printed inside `limitMap` when a piece fails to parse; `limitFailure`
and `fetchFailure` are the lines printed by `main`. -/
inductive LogLine where
  | atoiFailure (piece : GoStr)
  | limitFailure (e : LimitError)
  | fetchFailure (e : FetchError)
deriving DecidableEq, Repr

/-- The `for` loop of `limitMap`: convert each piece with `atoi`, returning
at the first failure, which the Go code also logs (`log.Println`). The
second component collects the log output. -/
def atoiPieces : List GoStr → Except LimitError (List Int) × List LogLine
  | [] => (.ok [], [])
  | p :: ps =>
    match atoi p with
    | none => (.error .nonNumericLimit, [.atoiFailure p])
    | some n =>
      match atoiPieces ps with
      | (.ok ns, lg) => (.ok (n :: ns), lg)
      | (.error e, lg) => (.error e, lg)

/-- Embedding of `limitMap`: split the string on commas, fail unless there
are exactly two pieces, then parse both pieces in order. -/
def limitMap (str : GoStr) : Except LimitError (List Int) × List LogLine :=
  let pieces := splitComma str
  if pieces.length ≠ 2 then (.error .malformedLimits, [])
  else atoiPieces pieces

/-- The `queue_totals` substructure, field order as declared in the source. -/
structure QueueTotals where
  messagesUnack : Int
  messagesReady : Int
deriving DecidableEq, Repr

/-- The decoded `/api/overview` representation. -/
structure Overview where
  queueTotals : QueueTotals
deriving DecidableEq, Repr

/-- First block of `processOverview`: classify `messages ready` against
`critical[0]` then `warning[0]`. Go indexing panics out of bounds; the
boolean records such a panic, cutting the output short. -/
def readyLines (over : Overview) (warning critical : List Int) : List String × Bool :=
  let rdy := toString over.queueTotals.messagesReady
  match critical[0]? with
  | none => ([], true)
  | some c0 =>
    if over.queueTotals.messagesReady ≥ c0 then
      (["CRITICAL " ++ rdy ++ " messages ready"], false)
    else
      match warning[0]? with
      | none => ([], true)
      | some w0 =>
        if over.queueTotals.messagesReady ≥ w0 then
          (["WARNING " ++ rdy ++ " messages ready"], false)
        else
          (["OK " ++ rdy ++ " messages ready"], false)

/-- Second block of `processOverview`: classify `messages unacknowledged`
against `critical[1]` then `warning[1]`. -/
def unackLines (over : Overview) (warning critical : List Int) : List String × Bool :=
  let unack := toString over.queueTotals.messagesUnack
  match critical[1]? with
  | none => ([], true)
  | some c1 =>
    if over.queueTotals.messagesUnack ≥ c1 then
      (["CRITICAL " ++ unack ++ " messages unacknowledged"], false)
    else
      match warning[1]? with
      | none => ([], true)
      | some w1 =>
        if over.queueTotals.messagesUnack ≥ w1 then
          (["WARNING " ++ unack ++ " messages unacknowledged"], false)
        else
          (["OK " ++ unack ++ " messages unacknowledged"], false)

/-- Embedding of `processOverview`: the lines printed to stdout, in print
order, and whether an index panic aborted the evaluation. -/
def processOverview (over : Overview) (warning critical : List Int) : List String × Bool :=
  match readyLines over warning critical with
  | (ls, true) => (ls, true)
  | (ls, false) =>
    match unackLines over warning critical with
    | (ls2, b) => (ls ++ ls2, b)

/-- A parsed JSON document, as seen after `encoding/json` tokenisation. -/
inductive Json where
  | null
  | bool (b : Bool)
  | num (n : Int)
  | str (s : String)
  | arr (elems : List Json)
  | obj (fields : List (String × Json))

/-- Unmarshal one JSON object member into a `QueueTotals` value, Go
`encoding/json` style: unknown names are ignored, `null` leaves the field
untouched, a number must fit the 64-bit `int`, anything else is a type
error. Members are applied in document order, so a later duplicate wins. -/
def setQTField (qt : QueueTotals) (name : String) (v : Json) : Except Unit QueueTotals :=
  if name = "messages_unacknowledged" then
    match v with
    | .null => .ok qt
    | .num n => if int64Min ≤ n ∧ n ≤ int64Max then .ok ⟨n, qt.messagesReady⟩ else .error ()
    | _ => .error ()
  else if name = "messages_ready" then
    match v with
    | .null => .ok qt
    | .num n => if int64Min ≤ n ∧ n ≤ int64Max then .ok ⟨qt.messagesUnack, n⟩ else .error ()
    | _ => .error ()
  else .ok qt

/-- Unmarshal a JSON value into an existing `QueueTotals` (Go decodes into
the current value, so absent members keep it unchanged). -/
def decodeQTInto (qt : QueueTotals) (j : Json) : Except Unit QueueTotals :=
  match j with
  | .null => .ok qt
  | .obj fields => fields.foldlM (fun acc p => setQTField acc p.1 p.2) qt
  | _ => .error ()

/-- Unmarshal a JSON value into an existing `Overview`: only the
`queue_totals` member is decoded, every other member is ignored. -/
def decodeOverviewInto (ov : Overview) (j : Json) : Except Unit Overview :=
  match j with
  | .null => .ok ov
  | .obj fields =>
    fields.foldlM
      (fun acc p =>
        if p.1 = "queue_totals" then
          match decodeQTInto acc.queueTotals p.2 with
          | .ok qt => .ok ⟨qt⟩
          | .error e => .error e
        else .ok acc)
      ov
  | _ => .error ()

/-- `json.Unmarshal(body, &over)` with `over := &Overview{}`: decoding
starts from the zero value, so every field a body leaves unmentioned
stays `0`. -/
def unmarshalOverview (j : Json) : Except Unit Overview :=
  decodeOverviewInto ⟨⟨0, 0⟩⟩ j

/-- The request URI built by `processHost`. -/
def requestURI (secure : Bool) (host port : String) : String :=
  (if secure then "https" else "http") ++ "://" ++ host ++ ":" ++ port ++ "/api/overview"

/-- Embedding of `processHost` with the network abstracted as the observed
HTTP exchange: `.error` is a transport failure, `.ok none` a body that is
not valid JSON text, `.ok (some j)` a body parsing to the document `j`. -/
def processHost (resp : Except Unit (Option Json)) : Except FetchError Overview :=
  match resp with
  | .error _ => .error .transportError
  | .ok none => .error .decodeError
  | .ok (some j) =>
    match unmarshalOverview j with
    | .error _ => .error .decodeError
    | .ok over => .ok over

/-- Observable outcome of a run: the hosts actually fetched in order, the
stdout lines, the error-log lines, and whether an index panic occurred. -/
structure RunResult where
  fetched : List GoStr
  stdout : List String
  log : List LogLine
  panicked : Bool
deriving DecidableEq, Repr

/-- The host loop of `main`: fetch each host in order; on a fetch error log
it and stop the whole run; on success evaluate the overview and print. -/
def loopHosts (fetch : GoStr → Except FetchError Overview) (warning critical : List Int) :
    List GoStr → RunResult
  | [] => ⟨[], [], [], false⟩
  | h :: rest =>
    match fetch h with
    | .error e => ⟨[h], [], [.fetchFailure e], false⟩
    | .ok over =>
      match processOverview over warning critical with
      | (lines, true) => ⟨[h], lines, [], true⟩
      | (lines, false) =>
        let r := loopHosts fetch warning critical rest
        ⟨h :: r.fetched, lines ++ r.stdout, r.log, r.panicked⟩

/-- Embedding of `main` after CLI parsing succeeded: parse the warning and
critical limit strings (aborting with a log line on failure), split the
host list on commas, and run the host loop. The `fetch` oracle stands for
`processHost` applied to one host's HTTP exchange. -/
def mainRun (warningStr criticalStr hostStr : GoStr)
    (fetch : GoStr → Except FetchError Overview) : RunResult :=
  match limitMap warningStr with
  | (.error e, lg) => ⟨[], [], lg ++ [.limitFailure e], false⟩
  | (.ok warningLimits, wlg) =>
    match limitMap criticalStr with
    | (.error e, lg) => ⟨[], [], wlg ++ lg ++ [.limitFailure e], false⟩
    | (.ok criticalLimits, clg) =>
      let r := loopHosts fetch warningLimits criticalLimits (splitComma hostStr)
      ⟨r.fetched, r.stdout, wlg ++ clg ++ r.log, r.panicked⟩

/-! ## Lemmas about `splitComma` and `atoi` -/

theorem splitComma_ne_nil (l : GoStr) : splitComma l ≠ [] := by
  induction l with
  | nil => simp [splitComma]
  | cons c rest ih =>
    by_cases hc : c = ','
    · simp [splitComma, hc]
    · simp only [splitComma, if_neg hc]
      cases h : splitComma rest with
      | nil => simp
      | cons p ps => simp

theorem splitComma_length (l : GoStr) : (splitComma l).length = l.count ',' + 1 := by
  induction l with
  | nil => simp [splitComma]
  | cons c rest ih =>
    by_cases hc : c = ','
    · subst hc
      simp [splitComma, List.count_cons, ih]
    · simp only [splitComma, if_neg hc]
      cases h : splitComma rest with
      | nil => exact absurd h (splitComma_ne_nil rest)
      | cons p ps =>
        have hlen : (p :: ps).length = rest.count ',' + 1 := h ▸ ih
        simp only [List.length_cons] at hlen ⊢
        simp [List.count_cons, hc, hlen]

theorem splitComma_no_comma (l : GoStr) (h : ',' ∉ l) : splitComma l = [l] := by
  induction l with
  | nil => simp [splitComma]
  | cons c rest ih =>
    have hc : ¬ c = ',' := fun hc => h (by simp [hc])
    have hrest : ',' ∉ rest := fun hm => h (by simp [hm])
    simp only [splitComma, if_neg hc, ih hrest]

theorem splitComma_append (a b : GoStr) (h : ',' ∉ a) :
    splitComma (a ++ ',' :: b) = a :: splitComma b := by
  induction a with
  | nil => simp [splitComma]
  | cons c a2 ih =>
    have hc : ¬ c = ',' := fun hc => h (by simp [hc])
    have ha2 : ',' ∉ a2 := fun hm => h (by simp [hm])
    have ih2 : splitComma (a2.append (',' :: b)) = a2 :: splitComma b := ih ha2
    simp only [List.cons_append, splitComma, if_neg hc, ih2]

theorem digitsVal_no_comma (l : GoStr) :
    ∀ acc n, digitsVal acc l = some n → ',' ∉ l := by
  induction l with
  | nil => intro acc n _; simp
  | cons c rest ih =>
    intro acc n h
    simp only [digitsVal] at h
    by_cases hd : c.isDigit
    · rw [if_pos hd] at h
      have hc : ¬ c = ',' := by
        intro hc; subst hc; simp [Char.isDigit] at hd
      have hrest := ih _ _ h
      simp only [List.mem_cons, not_or]
      exact ⟨fun hcc => hc hcc.symm, hrest⟩
    · rw [if_neg hd] at h
      exact absurd h (by simp)

theorem decimalVal_no_comma (l : GoStr) (n : Nat) (h : decimalVal l = some n) : ',' ∉ l := by
  cases l with
  | nil => simp
  | cons c rest => exact digitsVal_no_comma (c :: rest) 0 n h

theorem atoi_no_comma (s : GoStr) (n : Int) (h : atoi s = some n) : ',' ∉ s := by
  cases s with
  | nil => simp
  | cons c rest =>
    simp only [atoi] at h
    by_cases hp : c = '+'
    · rw [if_pos hp] at h
      obtain ⟨m, hm, -⟩ := Option.bind_eq_some.mp h
      have hrest := decimalVal_no_comma rest m hm
      subst hp
      simp [hrest]
    · rw [if_neg hp] at h
      by_cases hn : c = '-'
      · rw [if_pos hn] at h
        obtain ⟨m, hm, -⟩ := Option.bind_eq_some.mp h
        have hrest := decimalVal_no_comma rest m hm
        subst hn
        simp [hrest]
      · rw [if_neg hn] at h
        obtain ⟨m, hm, -⟩ := Option.bind_eq_some.mp h
        exact decimalVal_no_comma (c :: rest) m hm

/-! ## Lemmas about `atoiPieces` and `limitMap` -/

theorem atoiPieces_ok (ps : List GoStr) :
    ∀ ns lg, atoiPieces ps = (.ok ns, lg) → ns.length = ps.length ∧ lg = [] := by
  induction ps with
  | nil =>
    intro ns lg h
    simp only [atoiPieces, Prod.mk.injEq] at h
    obtain ⟨h1, h2⟩ := h
    cases h1
    exact ⟨rfl, h2.symm⟩
  | cons p ps ih =>
    intro ns lg h
    simp only [atoiPieces] at h
    cases hA : atoi p with
    | none => rw [hA] at h; exact absurd h (by simp)
    | some n =>
      rw [hA] at h
      cases hR : atoiPieces ps with
      | mk res lg2 =>
        cases res with
        | ok ns2 =>
          rw [hR] at h
          simp only [Prod.mk.injEq] at h
          obtain ⟨h1, h2⟩ := h
          cases h1
          obtain ⟨hl, hlg⟩ := ih ns2 lg2 hR
          subst h2
          simp [hl, hlg]
        | error e =>
          rw [hR] at h
          exact absurd h (by simp)

theorem limitMap_ok (s : GoStr) (r : List Int) (lg : List LogLine)
    (h : limitMap s = (.ok r, lg)) : r.length = 2 ∧ lg = [] := by
  simp only [limitMap] at h
  by_cases hl : (splitComma s).length ≠ 2
  · rw [if_pos hl] at h
    exact absurd h (by simp)
  · rw [if_neg hl] at h
    push_neg at hl
    obtain ⟨h1, h2⟩ := atoiPieces_ok (splitComma s) r lg h
    exact ⟨h1.trans hl, h2⟩

/-- C3: for every string of the form `a ++ "," ++ b` whose two pieces both
parse with `strconv.Atoi`, `limitMap` succeeds and returns the pair in
input order — first piece at index 0 (the ready-queue limit consumed by the
evaluator), second piece at index 1 (the unacknowledged-queue limit). -/
theorem limitMap_wellformed_pair (sa sb : GoStr) (a b : Int)
    (ha : atoi sa = some a) (hb : atoi sb = some b) :
    limitMap (sa ++ ',' :: sb) = (.ok [a, b], []) := by
  have hsa := atoi_no_comma sa a ha
  have hsb := atoi_no_comma sb b hb
  have hsplit : splitComma (sa ++ ',' :: sb) = [sa, sb] := by
    rw [splitComma_append sa sb hsa, splitComma_no_comma sb hsb]
  simp [limitMap, hsplit, atoiPieces, ha, hb]

/-- C3 witness: `limitMap "10,20"` returns `(ok [10, 20], no log)`. -/
theorem limitMap_wellformed_pair_witness :
    limitMap (['1', '0'] ++ ',' :: ['2', '0']) = (.ok [10, 20], []) :=
  limitMap_wellformed_pair ['1', '0'] ['2', '0'] 10 20 (by decide) (by decide)

/-- C4: a string without exactly one comma fails with the piece-count error
(`MalformedLimits`); a string splitting into two pieces of which either
fails `strconv.Atoi` fails with the non-numeric error; in both cases no
pair is returned. -/
theorem limitMap_failure_kinds (s : GoStr) :
    (s.count ',' ≠ 1 → (limitMap s).1 = .error .malformedLimits) ∧
    (∀ p1 p2, splitComma s = [p1, p2] → atoi p1 = none →
      (limitMap s).1 = .error .nonNumericLimit) ∧
    (∀ p1 p2 n, splitComma s = [p1, p2] → atoi p1 = some n → atoi p2 = none →
      (limitMap s).1 = .error .nonNumericLimit) := by
  refine ⟨?_, ?_, ?_⟩
  · intro hcount
    have hlen : (splitComma s).length ≠ 2 := by
      rw [splitComma_length]; omega
    simp [limitMap, if_pos hlen]
  · intro p1 p2 hsplit h1
    have hlen : ¬ (splitComma s).length ≠ 2 := by rw [hsplit]; simp
    simp [limitMap, if_neg hlen, hsplit, atoiPieces, h1]
  · intro p1 p2 n hsplit h1 h2
    have hlen : ¬ (splitComma s).length ≠ 2 := by rw [hsplit]; simp
    simp [limitMap, if_neg hlen, hsplit, atoiPieces, h1, h2]

/-- C4 witness: `"abc"` (no comma) gives the piece-count error, and
`"x,1"` (one comma, non-numeric first piece) gives the non-numeric error. -/
theorem limitMap_failure_kinds_witness :
    (limitMap ['a', 'b', 'c']).1 = .error .malformedLimits ∧
    (limitMap ['x', ',', '1']).1 = .error .nonNumericLimit :=
  ⟨(limitMap_failure_kinds ['a', 'b', 'c']).1 (by decide),
   (limitMap_failure_kinds ['x', ',', '1']).2.1 ['x'] ['1'] (by decide) (by decide)⟩

/-! ## Lemmas about `processOverview` -/

theorem processOverview_pair (over : Overview) (w0 w1 c0 c1 : Int) :
    processOverview over [w0, w1] [c0, c1] =
      ([(if over.queueTotals.messagesReady ≥ c0 then "CRITICAL "
         else if over.queueTotals.messagesReady ≥ w0 then "WARNING " else "OK ")
          ++ toString over.queueTotals.messagesReady ++ " messages ready",
        (if over.queueTotals.messagesUnack ≥ c1 then "CRITICAL "
         else if over.queueTotals.messagesUnack ≥ w1 then "WARNING " else "OK ")
          ++ toString over.queueTotals.messagesUnack ++ " messages unacknowledged"],
       false) := by
  by_cases h1 : over.queueTotals.messagesReady ≥ c0 <;>
    by_cases h2 : over.queueTotals.messagesReady ≥ w0 <;>
      by_cases h3 : over.queueTotals.messagesUnack ≥ c1 <;>
        by_cases h4 : over.queueTotals.messagesUnack ≥ w1 <;>
          simp [processOverview, readyLines, unackLines, h1, h2, h3, h4]

theorem processOverview_not_panicked (over : Overview) (warning critical : List Int)
    (hw : warning.length = 2) (hc : critical.length = 2) :
    (processOverview over warning critical).2 = false := by
  obtain ⟨w0, w1, hw2⟩ : ∃ w0 w1, warning = [w0, w1] := by
    cases warning with
    | nil => simp at hw
    | cons a t =>
      cases t with
      | nil => simp at hw
      | cons b t2 =>
        cases t2 with
        | nil => exact ⟨a, b, rfl⟩
        | cons d t3 => simp at hw
  obtain ⟨c0, c1, hc2⟩ : ∃ c0 c1, critical = [c0, c1] := by
    cases critical with
    | nil => simp at hc
    | cons a t =>
      cases t with
      | nil => simp at hc
      | cons b t2 =>
        cases t2 with
        | nil => exact ⟨a, b, rfl⟩
        | cons d t3 => simp at hc
  subst hw2; subst hc2
  rw [processOverview_pair]

/-- C1: whenever a counter is at or above its critical limit, the evaluator
prints the CRITICAL line for it regardless of the warning limit (also when
the critical limit is at or below the warning limit), and prints exactly
one line — hence one level — for each counter. -/
theorem critical_precedence (over : Overview) (w0 w1 c0 c1 : Int) :
    (over.queueTotals.messagesReady ≥ c0 →
      ∃ l2, processOverview over [w0, w1] [c0, c1] =
        (["CRITICAL " ++ toString over.queueTotals.messagesReady ++ " messages ready", l2],
         false)) ∧
    (over.queueTotals.messagesUnack ≥ c1 →
      ∃ l1, processOverview over [w0, w1] [c0, c1] =
        ([l1, "CRITICAL " ++ toString over.queueTotals.messagesUnack ++
          " messages unacknowledged"], false)) := by
  constructor
  · intro hready
    rw [processOverview_pair, if_pos hready]
    exact ⟨_, rfl⟩
  · intro hunack
    rw [processOverview_pair, if_pos hunack]
    exact ⟨_, rfl⟩

/-- C1 witness: with warning limit 50 below critical limit 20 (`crit ≤ warn`
edge included via `w0 = 100, c0 = 20`), value 20 is reported CRITICAL. -/
theorem critical_precedence_witness :
    ∃ l2, processOverview ⟨⟨0, 20⟩⟩ [100, 100] [20, 50] =
      (["CRITICAL " ++ toString (20 : Int) ++ " messages ready", l2], false) :=
  (critical_precedence ⟨⟨0, 20⟩⟩ 100 100 20 50).1 (by decide)

/-- C2: thresholds are inclusive — a counter equal to the warning limit and
below the critical limit is reported WARNING, a counter equal to the
critical limit is reported CRITICAL, for either counter. -/
theorem inclusive_boundaries (over : Overview) (w0 w1 c0 c1 : Int) :
    (over.queueTotals.messagesReady = w0 → over.queueTotals.messagesReady < c0 →
      ∃ l2, processOverview over [w0, w1] [c0, c1] =
        (["WARNING " ++ toString over.queueTotals.messagesReady ++ " messages ready", l2],
         false)) ∧
    (over.queueTotals.messagesReady = c0 →
      ∃ l2, processOverview over [w0, w1] [c0, c1] =
        (["CRITICAL " ++ toString over.queueTotals.messagesReady ++ " messages ready", l2],
         false)) ∧
    (over.queueTotals.messagesUnack = w1 → over.queueTotals.messagesUnack < c1 →
      ∃ l1, processOverview over [w0, w1] [c0, c1] =
        ([l1, "WARNING " ++ toString over.queueTotals.messagesUnack ++
          " messages unacknowledged"], false)) ∧
    (over.queueTotals.messagesUnack = c1 →
      ∃ l1, processOverview over [w0, w1] [c0, c1] =
        ([l1, "CRITICAL " ++ toString over.queueTotals.messagesUnack ++
          " messages unacknowledged"], false)) := by
  refine ⟨?_, ?_, ?_, ?_⟩
  · intro heq hlt
    rw [processOverview_pair, if_neg (by omega), if_pos (by omega)]
    exact ⟨_, rfl⟩
  · intro heq
    rw [processOverview_pair, if_pos (by omega)]
    exact ⟨_, rfl⟩
  · intro heq hlt
    rw [processOverview_pair]
    rw [if_neg (show ¬ over.queueTotals.messagesUnack ≥ c1 by omega),
      if_pos (show over.queueTotals.messagesUnack ≥ w1 by omega)]
    exact ⟨_, rfl⟩
  · intro heq
    rw [processOverview_pair, if_pos (show over.queueTotals.messagesUnack ≥ c1 by omega)]
    exact ⟨_, rfl⟩

/-- C2 witness: value 10000 equal to the warning limit (critical 50000) is
reported WARNING; value 50000 equal to the critical limit is CRITICAL. -/
theorem inclusive_boundaries_witness :
    (∃ l2, processOverview ⟨⟨0, 10000⟩⟩ [10000, 10000] [50000, 50000] =
      (["WARNING " ++ toString (10000 : Int) ++ " messages ready", l2], false)) ∧
    (∃ l2, processOverview ⟨⟨0, 50000⟩⟩ [10000, 10000] [50000, 50000] =
      (["CRITICAL " ++ toString (50000 : Int) ++ " messages ready", l2], false)) :=
  ⟨(inclusive_boundaries ⟨⟨0, 10000⟩⟩ 10000 10000 50000 50000).1 (by decide) (by decide),
   (inclusive_boundaries ⟨⟨0, 50000⟩⟩ 10000 10000 50000 50000).2.1 (by decide)⟩

/-- C6: for every evaluated snapshot the evaluator prints exactly two lines,
the `messages ready` line first and the `messages unacknowledged` line
second, each of the form `<LEVEL> <integer> <label>` with the level one of
OK, WARNING, CRITICAL and the integer the decimal rendering of the counter. -/
theorem output_format (over : Overview) (w0 w1 c0 c1 : Int) :
    ∃ lv1 lv2, (lv1 = "OK" ∨ lv1 = "WARNING" ∨ lv1 = "CRITICAL") ∧
      (lv2 = "OK" ∨ lv2 = "WARNING" ∨ lv2 = "CRITICAL") ∧
      processOverview over [w0, w1] [c0, c1] =
        ([lv1 ++ " " ++ toString over.queueTotals.messagesReady ++ " messages ready",
          lv2 ++ " " ++ toString over.queueTotals.messagesUnack ++ " messages unacknowledged"],
         false) := by
  refine ⟨if over.queueTotals.messagesReady ≥ c0 then "CRITICAL"
          else if over.queueTotals.messagesReady ≥ w0 then "WARNING" else "OK",
         if over.queueTotals.messagesUnack ≥ c1 then "CRITICAL"
          else if over.queueTotals.messagesUnack ≥ w1 then "WARNING" else "OK",
         ?_, ?_, ?_⟩
  · split_ifs <;> simp
  · split_ifs <;> simp
  · rw [processOverview_pair]
    split_ifs <;> rfl

/-- C10: a successful `limitMap` result always has exactly two entries, so
whenever both limit strings parse, the evaluator's accesses to positions 0
and 1 of the warning and critical pairs are in bounds (no index panic) for
every snapshot it evaluates. -/
theorem limit_pair_indices_safe :
    (∀ s r lg, limitMap s = (.ok r, lg) → r.length = 2) ∧
    (∀ sw sc w c lgw lgc, limitMap sw = (.ok w, lgw) → limitMap sc = (.ok c, lgc) →
      ∀ over, (processOverview over w c).2 = false) := by
  constructor
  · intro s r lg h
    exact (limitMap_ok s r lg h).1
  · intro sw sc w c lgw lgc hw hc over
    exact processOverview_not_panicked over w c (limitMap_ok sw w lgw hw).1
      (limitMap_ok sc c lgc hc).1

/-- C10 witness: the parses of `"10,20"` and `"30,40"` yield two-element
pairs, and evaluation with them performs no out-of-bounds access. -/
theorem limit_pair_indices_safe_witness :
    ([10, 20] : List Int).length = 2 ∧
    (processOverview ⟨⟨1, 2⟩⟩ [10, 20] [30, 40]).2 = false :=
  ⟨limit_pair_indices_safe.1 (['1', '0'] ++ ',' :: ['2', '0']) [10, 20] [] (by rfl),
   limit_pair_indices_safe.2 (['1', '0'] ++ ',' :: ['2', '0'])
     (['3', '0'] ++ ',' :: ['4', '0']) [10, 20] [30, 40] [] []
     (by rfl) (by rfl) ⟨⟨1, 2⟩⟩⟩

/-! ## Lemmas about the run controller -/

theorem loopHosts_cons_ok (fetch : GoStr → Except FetchError Overview)
    (warning critical : List Int) (x : GoStr) (l : List GoStr) (over : Overview)
    (lines : List String) (hov : fetch x = .ok over)
    (hpo : processOverview over warning critical = (lines, false)) :
    loopHosts fetch warning critical (x :: l) =
      ⟨x :: (loopHosts fetch warning critical l).fetched,
       lines ++ (loopHosts fetch warning critical l).stdout,
       (loopHosts fetch warning critical l).log,
       (loopHosts fetch warning critical l).panicked⟩ := by
  simp only [loopHosts, hov, hpo]

/-- C5: if the fetch of host `h` fails and every host before it succeeds,
the run stops at `h`: the hosts fetched are exactly the earlier ones plus
`h` (later hosts are never fetched), no stdout line is produced for `h` or
any later host, and the whole outcome coincides with a run whose host list
simply ends at `h` — earlier hosts' output is unaffected. -/
theorem first_fetch_error_stops_run (fetch : GoStr → Except FetchError Overview)
    (warning critical : List Int) (hw : warning.length = 2) (hc : critical.length = 2)
    (pre post : List GoStr) (h : GoStr)
    (hpre : ∀ x ∈ pre, (fetch x).isOk = true)
    (hh : (fetch h).isOk = false) :
    loopHosts fetch warning critical (pre ++ h :: post) =
      loopHosts fetch warning critical (pre ++ [h]) ∧
    (loopHosts fetch warning critical (pre ++ h :: post)).fetched = pre ++ [h] ∧
    (loopHosts fetch warning critical (pre ++ h :: post)).stdout =
      (loopHosts fetch warning critical pre).stdout := by
  induction pre with
  | nil =>
    obtain ⟨e, he⟩ : ∃ e, fetch h = .error e := by
      cases hfe : fetch h with
      | ok v => rw [hfe] at hh; simp [Except.isOk, Except.toBool] at hh
      | error e => exact ⟨e, rfl⟩
    simp [loopHosts, he]
  | cons x pre ih =>
    obtain ⟨over, hov⟩ : ∃ over, fetch x = .ok over := by
      have hx := hpre x (List.mem_cons_self x pre)
      cases hfe : fetch x with
      | ok v => exact ⟨v, rfl⟩
      | error e => rw [hfe] at hx; simp [Except.isOk, Except.toBool] at hx
    obtain ⟨lines, hpo⟩ : ∃ lines, processOverview over warning critical = (lines, false) := by
      have hnp := processOverview_not_panicked over warning critical hw hc
      cases hq : processOverview over warning critical with
      | mk ls b =>
        rw [hq] at hnp
        simp only at hnp
        subst hnp
        exact ⟨ls, rfl⟩
    have ih2 := ih (fun y hy => hpre y (List.mem_cons_of_mem x hy))
    rw [List.cons_append, List.cons_append,
      loopHosts_cons_ok fetch warning critical x (pre ++ h :: post) over lines hov hpo,
      loopHosts_cons_ok fetch warning critical x (pre ++ [h]) over lines hov hpo,
      ih2.1]
    refine ⟨rfl, ?_, ?_⟩
    · have hf : (loopHosts fetch warning critical (pre ++ [h])).fetched = pre ++ [h] := by
        rw [← ih2.1]; exact ih2.2.1
      simp [hf]
    · rw [loopHosts_cons_ok fetch warning critical x pre over lines hov hpo]
      have hs : (loopHosts fetch warning critical (pre ++ [h])).stdout =
          (loopHosts fetch warning critical pre).stdout := by
        rw [← ih2.1]; exact ih2.2.2
      simp [hs]

/-- Host fetch oracle used for concrete run-controller scenarios: host `a`
answers with a small snapshot, every other host fails at transport level. -/
def demoFetch : GoStr → Except FetchError Overview :=
  fun h => if h = ['a'] then .ok ⟨⟨1, 2⟩⟩ else .error .transportError

/-- C5 witness: with hosts `a`, `b`, `c` where `b`'s fetch fails, the run
equals the run on `a`, `b` alone, fetches exactly `a` and `b`, and prints
only host `a`'s lines. -/
theorem first_fetch_error_stops_run_witness :
    loopHosts demoFetch [10, 20] [30, 40] ([['a']] ++ ['b'] :: [['c']]) =
      loopHosts demoFetch [10, 20] [30, 40] ([['a']] ++ [['b']]) ∧
    (loopHosts demoFetch [10, 20] [30, 40] ([['a']] ++ ['b'] :: [['c']])).fetched =
      [['a']] ++ [['b']] ∧
    (loopHosts demoFetch [10, 20] [30, 40] ([['a']] ++ ['b'] :: [['c']])).stdout =
      (loopHosts demoFetch [10, 20] [30, 40] [['a']]).stdout :=
  first_fetch_error_stops_run demoFetch [10, 20] [30, 40] (by decide) (by decide)
    [['a']] [['c']] ['b'] (by decide) (by decide)

/-- C7: if either limit string fails to parse, the run terminates with no
host fetched and no evaluation output at all. -/
theorem limit_parse_failure_stops_run (wStr cStr hStr : GoStr)
    (fetch : GoStr → Except FetchError Overview) :
    ((limitMap wStr).1.isOk = false →
      (mainRun wStr cStr hStr fetch).fetched = [] ∧
      (mainRun wStr cStr hStr fetch).stdout = []) ∧
    ((limitMap cStr).1.isOk = false →
      (mainRun wStr cStr hStr fetch).fetched = [] ∧
      (mainRun wStr cStr hStr fetch).stdout = []) := by
  constructor
  · intro hw
    obtain ⟨e, lg, hwe⟩ : ∃ e lg, limitMap wStr = (.error e, lg) := by
      cases hq : limitMap wStr with
      | mk res lg =>
        cases res with
        | ok r => rw [hq] at hw; simp [Except.isOk, Except.toBool] at hw
        | error e => exact ⟨e, lg, rfl⟩
    simp [mainRun, hwe]
  · intro hc
    obtain ⟨e, lg, hce⟩ : ∃ e lg, limitMap cStr = (.error e, lg) := by
      cases hq : limitMap cStr with
      | mk res lg =>
        cases res with
        | ok r => rw [hq] at hc; simp [Except.isOk, Except.toBool] at hc
        | error e => exact ⟨e, lg, rfl⟩
    cases hq : limitMap wStr with
    | mk res lg2 =>
      cases res with
      | ok r => simp [mainRun, hq, hce]
      | error e2 => simp [mainRun, hq]

/-- C7 witness: warning string `"10000"` (a single field) fails to parse,
and the run fetches no host and prints nothing even though a host list and
a working fetch oracle are configured. -/
theorem limit_parse_failure_stops_run_witness :
    (mainRun ['1', '0', '0', '0', '0'] ['5', '0', ',', '6', '0'] ['a'] demoFetch).fetched = [] ∧
    (mainRun ['1', '0', '0', '0', '0'] ['5', '0', ',', '6', '0'] ['a'] demoFetch).stdout = [] :=
  (limit_parse_failure_stops_run ['1', '0', '0', '0', '0'] ['5', '0', ',', '6', '0']
    ['a'] demoFetch).1 (by rfl)

/-! ## Side effects of `limitMap` -/

theorem atoiPieces_error (ps : List GoStr) :
    ∀ e lg, atoiPieces ps = (.error e, lg) →
      e = .nonNumericLimit ∧ ∃ p, lg = [.atoiFailure p] := by
  induction ps with
  | nil =>
    intro e lg h
    exact absurd h (by simp [atoiPieces])
  | cons p ps ih =>
    intro e lg h
    simp only [atoiPieces] at h
    cases hA : atoi p with
    | none =>
      rw [hA] at h
      simp only [Prod.mk.injEq, Except.error.injEq] at h
      obtain ⟨h1, h2⟩ := h
      subst h1
      exact ⟨rfl, p, h2.symm⟩
    | some n =>
      rw [hA] at h
      cases hR : atoiPieces ps with
      | mk res lg2 =>
        cases res with
        | ok ns =>
          rw [hR] at h
          exact absurd h (by simp)
        | error e2 =>
          rw [hR] at h
          simp only [Prod.mk.injEq, Except.error.injEq] at h
          obtain ⟨h1, h2⟩ := h
          subst h1
          subst h2
          exact ih _ _ hR

/-- C9 counterexample: on input `"x,1"` the limit parser does produce
observable output besides its return value — it writes the `strconv` parse
error to the log — so it is not side-effect free on every failure path. -/
theorem limitMap_logs_on_nonnumeric :
    (limitMap ['x', ',', '1']).2 ≠ [] := by decide

/-- C9 amended: the limit parser performs no logging on the success path
and on the wrong-piece-count failure path, but on a non-numeric piece it
writes exactly one line (the `strconv.Atoi` error) to the log before
returning. -/
theorem limitMap_side_effects (s : GoStr) :
    (∀ r lg, limitMap s = (.ok r, lg) → lg = []) ∧
    ((limitMap s).1 = .error .malformedLimits → (limitMap s).2 = []) ∧
    ((limitMap s).1 = .error .nonNumericLimit →
      ∃ p, (limitMap s).2 = [.atoiFailure p]) := by
  refine ⟨?_, ?_, ?_⟩
  · intro r lg h
    exact (limitMap_ok s r lg h).2
  · intro h
    simp only [limitMap] at h ⊢
    by_cases hl : (splitComma s).length ≠ 2
    · rw [if_pos hl]
    · rw [if_neg hl] at h ⊢
      cases hR : atoiPieces (splitComma s) with
      | mk res lg =>
        cases res with
        | ok ns => exact (atoiPieces_ok (splitComma s) ns lg hR).2
        | error e =>
          rw [hR] at h
          obtain ⟨he, p, hp⟩ := atoiPieces_error (splitComma s) e lg hR
          subst he
          simp at h
  · intro h
    simp only [limitMap] at h ⊢
    by_cases hl : (splitComma s).length ≠ 2
    · rw [if_pos hl] at h
      exact absurd h (by simp)
    · rw [if_neg hl] at h ⊢
      cases hR : atoiPieces (splitComma s) with
      | mk res lg =>
        cases res with
        | ok ns =>
          rw [hR] at h
          exact absurd h (by simp)
        | error e =>
          obtain ⟨he, p, hp⟩ := atoiPieces_error (splitComma s) e lg hR
          exact ⟨p, by simp [hp]⟩

/-- C9 witness: on the success input `"1,2"` the log is empty, and on the
non-numeric input `"x,1"` exactly one log line is written. -/
theorem limitMap_side_effects_witness :
    ([] : List LogLine) = [] ∧ ∃ p, (limitMap ['x', ',', '1']).2 = [.atoiFailure p] :=
  ⟨(limitMap_side_effects ['1', ',', '2']).1 [1, 2] [] (by rfl),
   (limitMap_side_effects ['x', ',', '1']).2.2 (by rfl)⟩

/-! ## Lemmas about the JSON decoding -/

theorem setQTField_ready (qt : QueueTotals) (name : String) (v : Json)
    (h : name ≠ "messages_ready") :
    ∀ qt2, setQTField qt name v = .ok qt2 → qt2.messagesReady = qt.messagesReady := by
  intro qt2 hq
  simp only [setQTField] at hq
  by_cases h1 : name = "messages_unacknowledged"
  · rw [if_pos h1] at hq
    split at hq
    · cases hq; rfl
    · split at hq
      · cases hq; rfl
      · exact absurd hq (by simp)
    · exact absurd hq (by simp)
  · rw [if_neg h1, if_neg h] at hq
    cases hq; rfl

theorem setQTField_unack (qt : QueueTotals) (name : String) (v : Json)
    (h : name ≠ "messages_unacknowledged") :
    ∀ qt2, setQTField qt name v = .ok qt2 → qt2.messagesUnack = qt.messagesUnack := by
  intro qt2 hq
  simp only [setQTField] at hq
  rw [if_neg h] at hq
  by_cases h1 : name = "messages_ready"
  · rw [if_pos h1] at hq
    split at hq
    · cases hq; rfl
    · split at hq
      · cases hq; rfl
      · exact absurd hq (by simp)
    · exact absurd hq (by simp)
  · rw [if_neg h1] at hq
    cases hq; rfl

theorem qtFold_ready (qfields : List (String × Json)) :
    ∀ qt res, (∀ p ∈ qfields, p.1 ≠ "messages_ready") →
      qfields.foldlM (fun acc p => setQTField acc p.1 p.2) qt = .ok res →
      res.messagesReady = qt.messagesReady := by
  induction qfields with
  | nil =>
    intro qt res _ h
    cases h; rfl
  | cons p fs ih =>
    intro qt res hname h
    rw [List.foldlM_cons] at h
    cases hs : setQTField qt p.1 p.2 with
    | error e =>
      rw [hs] at h
      exact Except.noConfusion
        (show (Except.error e : Except Unit QueueTotals) = .ok res from h)
    | ok qt2 =>
      rw [hs] at h
      have h3 : fs.foldlM (fun acc p => setQTField acc p.1 p.2) qt2 = .ok res := h
      have h1 := setQTField_ready qt p.1 p.2 (hname p (List.mem_cons_self p fs)) qt2 hs
      have h2 := ih qt2 res (fun q hq => hname q (List.mem_cons_of_mem p hq)) h3
      rw [h2, h1]

theorem qtFold_unack (qfields : List (String × Json)) :
    ∀ qt res, (∀ p ∈ qfields, p.1 ≠ "messages_unacknowledged") →
      qfields.foldlM (fun acc p => setQTField acc p.1 p.2) qt = .ok res →
      res.messagesUnack = qt.messagesUnack := by
  induction qfields with
  | nil =>
    intro qt res _ h
    cases h; rfl
  | cons p fs ih =>
    intro qt res hname h
    rw [List.foldlM_cons] at h
    cases hs : setQTField qt p.1 p.2 with
    | error e =>
      rw [hs] at h
      exact Except.noConfusion
        (show (Except.error e : Except Unit QueueTotals) = .ok res from h)
    | ok qt2 =>
      rw [hs] at h
      have h3 : fs.foldlM (fun acc p => setQTField acc p.1 p.2) qt2 = .ok res := h
      have h1 := setQTField_unack qt p.1 p.2 (hname p (List.mem_cons_self p fs)) qt2 hs
      have h2 := ih qt2 res (fun q hq => hname q (List.mem_cons_of_mem p hq)) h3
      rw [h2, h1]

theorem decodeOverviewInto_no_qt (fields : List (String × Json)) :
    ∀ ov, (∀ p ∈ fields, p.1 ≠ "queue_totals") →
      decodeOverviewInto ov (.obj fields) = .ok ov := by
  induction fields with
  | nil => intro ov _; rfl
  | cons p fs ih =>
    intro ov hname
    have hp : ¬ p.1 = "queue_totals" := hname p (List.mem_cons_self p fs)
    have ihfs : decodeOverviewInto ov (.obj fs) = .ok ov :=
      ih ov (fun q hq => hname q (List.mem_cons_of_mem p hq))
    have hstep : decodeOverviewInto ov (.obj (p :: fs)) =
        Except.bind
          (if p.1 = "queue_totals" then
            match decodeQTInto ov.queueTotals p.2 with
            | .ok qt => (Except.ok (Overview.mk qt) : Except Unit Overview)
            | .error e => .error e
          else .ok ov)
          (fun acc => fs.foldlM
            (fun acc2 q =>
              if q.1 = "queue_totals" then
                match decodeQTInto acc2.queueTotals q.2 with
                | .ok qt => (Except.ok (Overview.mk qt) : Except Unit Overview)
                | .error e => .error e
              else .ok acc2) acc) := rfl
    rw [hstep, if_neg hp]
    exact ihfs

/-- C8: JSON bodies that decode successfully tolerate missing fields by
leaving the zero default in place instead of failing: the host fetcher
accepts `{}` and yields the snapshot `(0, 0)`; an object without a
`queue_totals` member always decodes to `(0, 0)`; and when the
`queue_totals` object lacks `messages_ready` (resp.
`messages_unacknowledged`) the decoded counter is `0`. -/
theorem missing_fields_default_zero :
    (processHost (.ok (some (.obj []))) = .ok ⟨⟨0, 0⟩⟩) ∧
    (∀ fields, (∀ p ∈ fields, p.1 ≠ "queue_totals") →
      unmarshalOverview (.obj fields) = .ok ⟨⟨0, 0⟩⟩) ∧
    (∀ qfields over, (∀ p ∈ qfields, p.1 ≠ "messages_ready") →
      unmarshalOverview (.obj [("queue_totals", .obj qfields)]) = .ok over →
      over.queueTotals.messagesReady = 0) ∧
    (∀ qfields over, (∀ p ∈ qfields, p.1 ≠ "messages_unacknowledged") →
      unmarshalOverview (.obj [("queue_totals", .obj qfields)]) = .ok over →
      over.queueTotals.messagesUnack = 0) := by
  refine ⟨rfl, ?_, ?_, ?_⟩
  · intro fields hname
    exact decodeOverviewInto_no_qt fields ⟨⟨0, 0⟩⟩ hname
  · intro qfields over hname h
    have h2 : Except.bind
        (match qfields.foldlM (fun acc p => setQTField acc p.1 p.2) (⟨0, 0⟩ : QueueTotals) with
          | .ok qt => (Except.ok (Overview.mk qt) : Except Unit Overview)
          | .error e => .error e)
        (fun x => pure x) = .ok over := h
    cases hq : qfields.foldlM (fun acc p => setQTField acc p.1 p.2) (⟨0, 0⟩ : QueueTotals) with
    | error e =>
      rw [hq] at h2
      exact Except.noConfusion (show (Except.error e : Except Unit Overview) = .ok over from h2)
    | ok qt =>
      rw [hq] at h2
      have h3 : Overview.mk qt = over :=
        Except.ok.inj (show (Except.ok (Overview.mk qt) : Except Unit Overview) = .ok over from h2)
      subst h3
      exact qtFold_ready qfields ⟨0, 0⟩ qt hname hq
  · intro qfields over hname h
    have h2 : Except.bind
        (match qfields.foldlM (fun acc p => setQTField acc p.1 p.2) (⟨0, 0⟩ : QueueTotals) with
          | .ok qt => (Except.ok (Overview.mk qt) : Except Unit Overview)
          | .error e => .error e)
        (fun x => pure x) = .ok over := h
    cases hq : qfields.foldlM (fun acc p => setQTField acc p.1 p.2) (⟨0, 0⟩ : QueueTotals) with
    | error e =>
      rw [hq] at h2
      exact Except.noConfusion (show (Except.error e : Except Unit Overview) = .ok over from h2)
    | ok qt =>
      rw [hq] at h2
      have h3 : Overview.mk qt = over :=
        Except.ok.inj (show (Except.ok (Overview.mk qt) : Except Unit Overview) = .ok over from h2)
      subst h3
      exact qtFold_unack qfields ⟨0, 0⟩ qt hname hq

/-- C8 witness: a body with only an unknown member decodes to `(0, 0)`, and
a `queue_totals` object carrying only `messages_unacknowledged` leaves
`messages_ready` at its zero default. -/
theorem missing_fields_default_zero_witness :
    unmarshalOverview (.obj [("extra", .num 7)]) = .ok ⟨⟨0, 0⟩⟩ ∧
    (Overview.mk ⟨5, 0⟩).queueTotals.messagesReady = 0 :=
  ⟨missing_fields_default_zero.2.1 [("extra", .num 7)] (by decide),
   missing_fields_default_zero.2.2.1 [("messages_unacknowledged", .num 5)] ⟨⟨5, 0⟩⟩
     (by decide) (by rfl)⟩

end NagiosRabbit
